import Mathlib

/-!
Shallow embedding of `thunder/images/images.py` (the `Images` collection type) and
verification of its specification.

Modelling conventions:

* An n-dimensional numeric array is a shape (list of sizes) together with a total
  valuation on multi-indices; numeric values are rationals.
* `Images` carries the logical array (`shape[0]` elements along axis 0) and the kind
  of backing storage (`mode`): a local in-process array or a distributed (spark)
  collection.  Distributed primitives (bolt `mean`, `swap`, `concatenate`, spark
  `takeSample`) are external library calls; they are modelled by their documented
  logical results.
* External numerical routines (scipy filters, the Pearson coefficient from numpy
  corrcoef, square root) are opaque pure functions passed as parameters, as the
  specification treats them.
* Fallible methods return `Except String`.
* The numpy global random generator is modelled as an infinite stream of draws
  together with an explicit position (the global state), threaded through calls.
-/

set_option maxHeartbeats 1000000

inductive Mode
  | localMode
  | sparkMode
deriving DecidableEq, Repr

/-- An n-dimensional numeric array: its shape and a valuation on multi-indices. -/
structure NDArray where
  shape : List ℕ
  val : List ℕ → ℚ

/-- The `Images` collection: a logical array whose axis 0 indexes the elements, plus
the kind of backing storage.  `mode` is determined by the backing (a plain in-memory
array gives local mode, a distributed collection gives spark mode), as the base
constructor infers it from the wrapped storage. -/
structure Images where
  arr : NDArray
  mode : Mode

/-- `shape` of the collection (attribute of the base `Data` class): the shape of the
backing array. -/
def Images.shape (imgs : Images) : List ℕ := imgs.arr.shape

/-- `Images.dims` (images.py lines 29-31): `self.shape[1:]`, the per-element dims. -/
def Images.dims (imgs : Images) : List ℕ := imgs.shape.drop 1

/-- `Images.count` (lines 33-43): local mode reads `shape[0]`; spark mode counts the
backing rdd, which holds one record per element, so it is modelled by the same leading
shape entry. -/
def Images.count (imgs : Images) : ℕ := imgs.shape.headD 0

/-- Element `i` of the collection: `values[i]`, an array of shape `dims`. -/
def Images.elem (imgs : Images) (i : ℕ) : NDArray :=
  ⟨imgs.dims, fun idx => imgs.arr.val (i :: idx)⟩

/-- Modelled from the spec: the base class method `_map` (thunder/base.py, not under
src/) applies `func` to each element independently; a declared `dims` argument gives
the output per-element shape, otherwise the shape is inferred by probing one
transformed element.  In local mode the element handed to `func` is a view aliasing
the backing array, so writes `func` performs on its argument are visible in the input
collection afterwards; in spark mode `func` runs on task-local deserialized copies and
the driver-side input is untouched.  Here `f` returns the pair (contents of its
argument after the call, returned array), so the first component models in-place
writes.  The returned pair is (input collection after the call, result collection);
the result keeps the same kind of backing, hence the same mode. -/
def Images.map_effect (imgs : Images) (f : NDArray → NDArray × NDArray)
    (outdims : Option (List ℕ)) : Images × Images :=
  let after : Images :=
    match imgs.mode with
    | Mode.localMode =>
        ⟨⟨imgs.arr.shape, fun l => (f (imgs.elem (l.headD 0))).1.val l.tail⟩, Mode.localMode⟩
    | Mode.sparkMode => imgs
  let dims' := outdims.getD (f (imgs.elem 0)).2.shape
  let result : Images :=
    ⟨⟨imgs.count :: dims', fun l => (f (imgs.elem (l.headD 0))).2.val l.tail⟩, imgs.mode⟩
  (after, result)

/-- `Images.map` (lines 179-183): map an array to array function over each image;
`self._map(func, axis=0, value_shape=dims)`.  A pure function has no in-place effect,
so the effect component is the unchanged argument. -/
def Images.map (imgs : Images) (func : NDArray → NDArray) (dims : Option (List ℕ)) : Images :=
  (imgs.map_effect (fun x => (x, func x)) dims).2

/-- Mean over axis 0 at a fixed spatial index (numpy / bolt semantics). -/
def NDArray.axis0Mean (a : NDArray) (idx : List ℕ) : ℚ :=
  (∑ t ∈ Finset.range (a.shape.headD 0), a.val (t :: idx)) / (a.shape.headD 0 : ℚ)

/-- numpy / bolt `values.mean(axis=0, keepdims=True)` (external library, documented
semantics): the leading axis is reduced to size 1. -/
def NDArray.mean0 (a : NDArray) : NDArray :=
  ⟨1 :: a.shape.drop 1, fun l => a.axis0Mean l.tail⟩

/-- numpy / bolt `values.var(axis=0, keepdims=True)`: mean of squared deviations. -/
def NDArray.var0 (a : NDArray) : NDArray :=
  ⟨1 :: a.shape.drop 1,
   fun l => (∑ t ∈ Finset.range (a.shape.headD 0),
      (a.val (t :: l.tail) - a.axis0Mean l.tail) ^ 2) / (a.shape.headD 0 : ℚ)⟩

/-- numpy / bolt `values.std(axis=0, keepdims=True)`: square root of the variance;
the square root is an external numerical function passed as a parameter. -/
def NDArray.std0 (sqrt : ℚ → ℚ) (a : NDArray) : NDArray :=
  ⟨1 :: a.shape.drop 1, fun l => sqrt (a.var0.val l)⟩

/-- numpy / bolt `values.sum(axis=0, keepdims=True)`. -/
def NDArray.sum0 (a : NDArray) : NDArray :=
  ⟨1 :: a.shape.drop 1, fun l => ∑ t ∈ Finset.range (a.shape.headD 0), a.val (t :: l.tail)⟩

/-- Maximum of `f` over `0 .. n-1` by folding (numpy max; meaningful when `0 < n`). -/
def foldMax (f : ℕ → ℚ) (n : ℕ) : ℚ :=
  (List.range n).foldl (fun acc j => Max.max acc (f j)) (f 0)

/-- Minimum of `f` over `0 .. n-1` by folding (numpy min; meaningful when `0 < n`). -/
def foldMin (f : ℕ → ℚ) (n : ℕ) : ℚ :=
  (List.range n).foldl (fun acc j => Min.min acc (f j)) (f 0)

/-- numpy / bolt `values.max(axis=0, keepdims=True)`. -/
def NDArray.max0 (a : NDArray) : NDArray :=
  ⟨1 :: a.shape.drop 1, fun l => foldMax (fun t => a.val (t :: l.tail)) (a.shape.headD 0)⟩

/-- numpy / bolt `values.min(axis=0, keepdims=True)`. -/
def NDArray.min0 (a : NDArray) : NDArray :=
  ⟨1 :: a.shape.drop 1, fun l => foldMin (fun t => a.val (t :: l.tail)) (a.shape.headD 0)⟩

/-- `Images.mean` (lines 197-201): `self._constructor(self.values.mean(axis=0,
keepdims=True))`.  The numpy / bolt aggregate keeps the backing kind, so the wrapped
result keeps the mode. -/
def Images.mean (imgs : Images) : Images := ⟨imgs.arr.mean0, imgs.mode⟩

/-- `Images.var` (lines 203-207). -/
def Images.var (imgs : Images) : Images := ⟨imgs.arr.var0, imgs.mode⟩

/-- `Images.std` (lines 209-213). -/
def Images.std (sqrt : ℚ → ℚ) (imgs : Images) : Images := ⟨imgs.arr.std0 sqrt, imgs.mode⟩

/-- `Images.sum` (lines 215-219). -/
def Images.sum (imgs : Images) : Images := ⟨imgs.arr.sum0, imgs.mode⟩

/-- `Images.max` (lines 221-225). -/
def Images.max (imgs : Images) : Images := ⟨imgs.arr.max0, imgs.mode⟩

/-- `Images.min` (lines 227-231). -/
def Images.min (imgs : Images) : Images := ⟨imgs.arr.min0, imgs.mode⟩

/-- Original multi-index of an array squeezed of all its size-1 axes: removed axes
read index 0, the remaining ones consume the squeezed index in order. -/
def unsqueezeIdx : List ℕ → List ℕ → List ℕ
  | [], _ => []
  | s :: rest, idx =>
      if s = 1 then 0 :: unsqueezeIdx rest idx
      else idx.headD 0 :: unsqueezeIdx rest idx.tail

/-- numpy `x.squeeze(axis=None)` (external, documented): remove all size-1 axes. -/
def NDArray.squeezeAll (a : NDArray) : NDArray :=
  ⟨a.shape.filter (fun s => decide (s ≠ 1)), fun idx => a.val (unsqueezeIdx a.shape idx)⟩

/-- Entries of the list whose position (counted from `pos`) is not listed in `ax`. -/
def removeIdxsAux : List ℕ → List ℕ → ℕ → List ℕ
  | [], _, _ => []
  | s :: rest, ax, pos =>
      if pos ∈ ax then removeIdxsAux rest ax (pos + 1)
      else s :: removeIdxsAux rest ax (pos + 1)

/-- Original multi-index for a squeeze along the listed axes (all of size 1 at the
call sites): removed axes read index 0. -/
def insertZerosAux : List ℕ → List ℕ → ℕ → List ℕ → List ℕ
  | [], _, _, _ => []
  | _ :: rest, ax, pos, idx =>
      if pos ∈ ax then 0 :: insertZerosAux rest ax (pos + 1) idx
      else idx.headD 0 :: insertZerosAux rest ax (pos + 1) idx.tail

/-- numpy `x.squeeze(axis=tuple)` (external, documented): remove the listed axes. -/
def NDArray.squeezeAt (a : NDArray) (ax : List ℕ) : NDArray :=
  ⟨removeIdxsAux a.shape ax 0, fun idx => a.val (insertZerosAux a.shape ax 0 idx)⟩

/-- numpy `x.squeeze(axis=axis)` with an optional tuple of axes. -/
def NDArray.npSqueeze (a : NDArray) (ax : Option (List ℕ)) : NDArray :=
  match ax with
  | none => a.squeezeAll
  | some l => a.squeezeAt l

/-- `Images.squeeze` (lines 233-238): `axis = tuple(range(1, len(self.shape) - 1)) if
prod(self.shape[1:]) == 1 else None`, then `self.map(lambda x: x.squeeze(axis=axis))`
(no declared dims, so the output shape is inferred).  The axis positions refer to the
axes of each element. -/
def Images.squeeze (imgs : Images) : Images :=
  let axis : Option (List ℕ) :=
    if (imgs.shape.drop 1).prod = 1 then some (List.range' 1 (imgs.shape.length - 2))
    else none
  imgs.map (fun x => x.npSqueeze axis) none

/-- numpy `amax(x, axis)` for a normalized in-range axis (external, documented):
remove the axis, taking the maximum over it at each remaining position. -/
def NDArray.amaxAxis (a : NDArray) (ax : ℕ) : NDArray :=
  ⟨a.shape.eraseIdx ax, fun idx => foldMax (fun j => a.val (idx.insertIdx ax j)) (a.shape.getD ax 0)⟩

/-- numpy `amin(x, axis)` for a normalized in-range axis (external, documented). -/
def NDArray.aminAxis (a : NDArray) (ax : ℕ) : NDArray :=
  ⟨a.shape.eraseIdx ax, fun idx => foldMin (fun j => a.val (idx.insertIdx ax j)) (a.shape.getD ax 0)⟩

/-- Pointwise sum of two arrays of the same shape (numpy +). -/
def NDArray.addArr (a b : NDArray) : NDArray := ⟨a.shape, fun idx => a.val idx + b.val idx⟩

/-- `Images.max_projection` (lines 240-256).  The check `axis >= size(self.dims)`
raises first, before any element is processed; then `del newdims[axis]` follows Python
list deletion, which accepts negative indices down to `-ndims` and raises IndexError
below that; `amax` along the same normalized axis; the map declares `dims=newdims`. -/
def Images.max_projection (imgs : Images) (axis : ℤ) : Except String Images :=
  let ndims := imgs.dims.length
  if (ndims : ℤ) ≤ axis then
    Except.error "Axis for projection exceeds image dimensions"
  else if axis < -(ndims : ℤ) then
    Except.error "list index out of range"
  else
    let a : ℕ := (if axis < 0 then axis + ndims else axis).toNat
    Except.ok (imgs.map (fun x => x.amaxAxis a) (some (imgs.dims.eraseIdx a)))

/-- `Images.max_min_projection` (lines 258-275): same checks, mapping
`amax(x, axis) + amin(x, axis)`. -/
def Images.max_min_projection (imgs : Images) (axis : ℤ) : Except String Images :=
  let ndims := imgs.dims.length
  if (ndims : ℤ) ≤ axis then
    Except.error "Axis for projection exceeds image dimensions"
  else if axis < -(ndims : ℤ) then
    Except.error "list index out of range"
  else
    let a : ℕ := (if axis < 0 then axis + ndims else axis).toNat
    Except.ok (imgs.map (fun x => (x.amaxAxis a).addArr (x.aminAxis a))
      (some (imgs.dims.eraseIdx a)))

/-- Argument to `subsample`: one integer applied to every axis, or one per axis. -/
inductive SubsampleFactor
  | single (n : ℕ)
  | seq (l : List ℕ)

/-- `factor = [factor] * ndims` when a bare integer was given, else the sequence. -/
def SubsampleFactor.toList (f : SubsampleFactor) (ndims : ℕ) : List ℕ :=
  match f with
  | .single n => List.replicate ndims n
  | .seq l => l

/-- `roundup(a, b) = (a + b - 1) // b` (images.py lines 298-299). -/
def roundup (a b : ℕ) : ℕ := (a + b - 1) / b

/-- `v[slices]` with `slices = [slice(0, dims[i], factor[i]) ...]` (numpy basic
slicing, external): along each axis, index j of the result reads index j * factor. -/
def NDArray.sliceStride (a : NDArray) (f : List ℕ) : NDArray :=
  ⟨List.zipWith roundup a.shape f, fun idx => a.val (List.zipWith (· * ·) idx f)⟩

/-- `Images.subsample` (lines 277-304).  The factors are integers; the guard
`any(sf <= 0)` over naturals rejects exactly the zero entries.  New dims come from
`roundup` per axis, and the map declares them. -/
def Images.subsample (imgs : Images) (factor : SubsampleFactor) : Except String Images :=
  let dims := imgs.dims
  let ndims := dims.length
  let f := factor.toList ndims
  if f.any (fun sf => decide (sf = 0)) then
    Except.error "All sampling factors must be positive"
  else
    Except.ok (imgs.map (fun v => v.sliceStride f)
      (some ((List.range ndims).map fun i => roundup (dims.getD i 0) (f.getD i 1))))

/-- Filter size argument: a bare integer or a per-axis sequence. -/
inductive FilterSize
  | scalar (n : ℕ)
  | seq (l : List ℕ)
deriving DecidableEq, Repr

/-- The per-element closure built inside `_image_filter` (source name `filter_`,
lines 383-393).  When `special` holds (3-d element with third size entry 0), the
filter runs slice by slice over the third axis, writing each filtered plane back into
`im`; in local mode `im = im.copy()` redirects those writes to a fresh copy, so the
argument is returned unchanged as the first component, while in spark mode
`im.setflags(write=True)` makes the (task-local) argument writable and the writes land
in it.  The returned pair records (argument contents after the call, returned array).
Since the filtered slices are disjoint in the third axis and each read only uses its
own slice, the loop amounts to the independent per-slice filter.  Otherwise
`filter_ = lambda x: func(x, size)`, a pure call. -/
def imageFilterInner (func : NDArray → FilterSize → NDArray) (mode : Mode)
    (sizeList : List ℕ) (size' : FilterSize) (special : Bool) (im : NDArray) :
    NDArray × NDArray :=
  if special then
    let mutated : NDArray :=
      ⟨im.shape, fun idx =>
        (func ⟨im.shape.take 2, fun q => im.val (q.take 2 ++ [idx.getD 2 0])⟩
          (FilterSize.seq (sizeList.take 2))).val (idx.take 2)⟩
    match mode with
    | Mode.sparkMode => (mutated, mutated)
    | Mode.localMode => (im, mutated)
  else (im, func im size')

/-- `Images._image_filter` (lines 357-395).  `func` is the selected scipy filter
(median or uniform), an external pure function taken as a parameter.  A scalar size is
expanded to `[size] * 3` for 3-d elements; the slice-by-slice special case applies to
3-d elements whose third size entry is 0.  The map declares `dims=self.dims`. -/
def Images._image_filter (func : NDArray → FilterSize → NDArray) (imgs : Images)
    (size : FilterSize) : Images × Images :=
  let ndims := imgs.dims.length
  let size' : FilterSize :=
    match size with
    | FilterSize.scalar s => if ndims = 3 then FilterSize.seq [s, s, s] else FilterSize.scalar s
    | FilterSize.seq l => FilterSize.seq l
  let sizeList : List ℕ := match size' with | FilterSize.scalar _ => [] | FilterSize.seq l => l
  let special : Bool := ndims == 3 && sizeList.getD 2 1 == 0
  imgs.map_effect (imageFilterInner func imgs.mode sizeList size' special) (some imgs.dims)

/-- `Images.uniform_filter` (lines 327-340): `self._image_filter` with the external
scipy uniform filter. -/
def Images.uniform_filter (func : NDArray → FilterSize → NDArray) (imgs : Images)
    (size : FilterSize) : Images :=
  (imgs._image_filter func size).2

/-- `Images.median_filter` (lines 342-355): `self._image_filter` with the external
scipy median filter. -/
def Images.median_filter (func : NDArray → FilterSize → NDArray) (imgs : Images)
    (size : FilterSize) : Images :=
  (imgs._image_filter func size).2

/-- `Images.sample` (lines 152-177).  External randomness is modelled explicitly:
`stream` is the infinite sequence of uniform draws of the numpy global RandomState and
`g` the current position of that global state, advanced by every draw (`random.rand`
and `random.randint` both consume it); `intStream` models `random.randint(0, 2 ** 32)`;
`takeSample` models the external spark takeSample primitive, a deterministic function
of the data, the count and the seed, returning a driver-local array.  Note the local
branch never uses the seed: `inds` comes from `random.rand(nsamples)`, i.e. from the
ambient global state; `int(k)` truncates the nonnegative draw, i.e. takes its floor.
Both branches wrap a plain local array (`asarray`), so the constructor infers a local
backing.  Returns the result together with the advanced global state. -/
def Images.sample (stream : ℕ → ℚ) (intStream : ℕ → ℕ)
    (takeSample : NDArray → ℕ → ℕ → NDArray) (imgs : Images)
    (nsamples : ℕ) (seed : Option ℕ) (g : ℕ) : Except String (Images × ℕ) :=
  if nsamples < 1 then
    Except.error "number of samples must be larger than 0"
  else
    let seeded : ℕ × ℕ :=
      match seed with
      | some s => (s, g)
      | none => (intStream g, g + 1)
    match imgs.mode with
    | Mode.sparkMode =>
        Except.ok (⟨takeSample imgs.arr nsamples seeded.1, Mode.localMode⟩, seeded.2)
    | Mode.localMode =>
        let inds := (List.range nsamples).map fun j =>
          (⌊stream (seeded.2 + j) * (imgs.shape.headD 0 : ℚ)⌋).toNat
        Except.ok
          (⟨⟨nsamples :: imgs.dims,
             fun l => imgs.arr.val (inds.getD (l.headD 0) 0 :: l.tail)⟩, Mode.localMode⟩,
           seeded.2 + nsamples)

/-- The Series sibling abstraction: axis 0 of the images becomes the trailing
per-position series axis; `index` labels it. -/
structure Series where
  values : NDArray
  index : List ℕ
  mode : Mode

/-- Move axis 0 to the end: result index (d1 .. dk, t) reads original (t, d1 .. dk). -/
def NDArray.transpose0Last (a : NDArray) : NDArray :=
  ⟨a.shape.drop 1 ++ a.shape.take 1, fun l => a.val (l.getLastD 0 :: l.dropLast)⟩

/-- `Images.toseries` (lines 94-114): `index = arange(shape[0])`; in local mode the
backing array is transposed with axis 0 moved last; in spark mode the bolt `swap`
primitive (external) produces the same logical transpose in distributed form. -/
def Images.toseries (imgs : Images) : Series :=
  match imgs.mode with
  | Mode.sparkMode =>
      ⟨imgs.arr.transpose0Last, List.range (imgs.shape.headD 0), Mode.sparkMode⟩
  | Mode.localMode =>
      ⟨imgs.arr.transpose0Last, List.range (imgs.shape.headD 0), Mode.localMode⟩

/-- The one-dimensional series of a spatial position: the slice along the last axis. -/
def seriesAt (a : NDArray) (p : List ℕ) : List ℚ :=
  (List.range (a.shape.getLastD 0)).map fun t => a.val (p ++ [t])

/-- Modelled from the spec: `Series.map` (thunder/series/series.py, not under src/)
applies the function to each spatial record series; for a scalar-valued function the
result holds one value per spatial position. -/
def Series.mapScalar (s : Series) (f : List ℚ → ℚ) : Series :=
  ⟨⟨s.values.shape.dropLast, fun p => f (seriesAt s.values p)⟩, s.index, s.mode⟩

/-- Modelled from the spec: `toarray` (base class, not under src/) materializes the
collection to a single local array. -/
def Series.toarray (s : Series) : NDArray := s.values

/-- Concatenation along axis 0 (numpy / bolt concatenate, external, documented):
the first array contributes the leading block of indices. -/
def concatArr (a b : NDArray) : NDArray :=
  ⟨(a.shape.headD 0 + b.shape.headD 0) :: a.shape.drop 1,
   fun l =>
     if l.headD 0 < a.shape.headD 0 then a.val l
     else b.val ((l.headD 0 - a.shape.headD 0) :: l.tail)⟩

/-- `Images.localcorr` (lines 397-438).  `uniformF` is the external scipy uniform
filter and `pearson` the 0,1 entry of numpy corrcoef applied to two vectors, i.e.
their Pearson correlation coefficient — both external pure functions.  The
isinstance integer check on `neighborhood` is enforced by its type.  `fromarray` and
`fromrdd` (readers module, not under src/) are modelled from the spec as wrapping the
given storage in a collection of the matching kind. -/
def Images.localcorr (uniformF : NDArray → FilterSize → NDArray)
    (pearson : List ℚ → List ℚ → ℚ) (imgs : Images) (neighborhood : ℕ) : NDArray :=
  let nimages := imgs.shape.headD 0
  let blurred := Images.uniform_filter uniformF imgs (FilterSize.scalar (neighborhood * 2 + 1))
  let combinedImages : Images :=
    match imgs.mode with
    | Mode.sparkMode => ⟨concatArr imgs.arr blurred.arr, Mode.sparkMode⟩
    | Mode.localMode => ⟨concatArr imgs.arr blurred.arr, Mode.localMode⟩
  let series := combinedImages.toseries
  let corr := series.mapScalar fun x => pearson (x.take nimages) (x.drop nimages)
  corr.toarray

/-- The five-step sequence exactly as the specification words it: (1) blur the
collection with a uniform filter of window size 2*neighborhood+1; (2) concatenate the
N originals with the N blurred elements along axis 0 into one 2N-element collection,
originals first; (3) convert to the series representation; (4) for each spatial
position take the Pearson coefficient between the first-N and last-N subsequences of
its series; (5) materialize to a local array. -/
def localcorrSpec (uniformF : NDArray → FilterSize → NDArray)
    (pearson : List ℚ → List ℚ → ℚ) (imgs : Images) (neighborhood : ℕ) : NDArray :=
  let n := imgs.shape.headD 0
  let blurred := Images.uniform_filter uniformF imgs (FilterSize.scalar (2 * neighborhood + 1))
  let combined : Images := ⟨concatArr imgs.arr blurred.arr, imgs.mode⟩
  ((combined.toseries).mapScalar fun x => pearson (x.take n) (x.drop n)).toarray

/-- A local 2-element collection with per-element dims (4, 1, 3): a mixed shape in
which only the middle spatial dim is degenerate. -/
def exMixedDims : Images := ⟨⟨[2, 4, 1, 3], fun _ => 0⟩, Mode.localMode⟩

/-- A local 2-element collection of fully degenerate elements, dims (1, 1). -/
def exDegenerate : Images := ⟨⟨[2, 1, 1], fun _ => 0⟩, Mode.localMode⟩

/-- A local 2-element collection with dims (3,); element i holds the constant i. -/
def exAgg : Images := ⟨⟨[2, 3], fun l => (l.headD 0 : ℚ)⟩, Mode.localMode⟩

/-- Identity standing in for the external square root in witnesses. -/
def sqrtId : ℚ → ℚ := fun q => q

/-- A concrete global draw stream: the first uniform draw is 0, later ones 1/2. -/
def exStream : ℕ → ℚ := fun n => if n = 0 then 0 else 1/2

/-- A concrete randint stream (not consulted when a seed is passed). -/
def exIntStream : ℕ → ℕ := fun _ => 0

/-- A concrete stand-in for the external spark takeSample primitive. -/
def exTakeSample : NDArray → ℕ → ℕ → NDArray := fun a _ _ => a

/-- A local 2-element collection of scalar elements with values 0 and 1. -/
def exPair : Images := ⟨⟨[2], fun l => (l.headD 0 : ℚ)⟩, Mode.localMode⟩

/-- A local 2-element collection with dims (5, 3). -/
def exSub : Images := ⟨⟨[2, 5, 3], fun _ => 0⟩, Mode.localMode⟩

/-- A local 2-element collection with dims (4, 4, 3). -/
def exProj : Images := ⟨⟨[2, 4, 4, 3], fun _ => 0⟩, Mode.localMode⟩

/-- A spark-mode 3-element collection with dims (2,). -/
def exSpark : Images := ⟨⟨[3, 2], fun _ => 0⟩, Mode.sparkMode⟩

theorem map_dims_some (imgs : Images) (f : NDArray → NDArray) (d : List ℕ) :
    (imgs.map f (some d)).dims = d := rfl

theorem map_dims_none (imgs : Images) (f : NDArray → NDArray) :
    (imgs.map f none).dims = (f (imgs.elem 0)).shape := rfl

theorem map_mode (imgs : Images) (f : NDArray → NDArray) (d : Option (List ℕ)) :
    (imgs.map f d).mode = imgs.mode := rfl

theorem squeeze_eq_map (imgs : Images) :
    imgs.squeeze = imgs.map
      (fun x => x.npSqueeze
        (if imgs.dims.prod = 1 then some (List.range' 1 (imgs.shape.length - 2)) else none))
      none := rfl

theorem removeIdxsAux_all_mem {l ax : List ℕ} {pos : ℕ}
    (h : ∀ p, pos ≤ p → p < pos + l.length → p ∈ ax) : removeIdxsAux l ax pos = [] := by
  induction l generalizing pos with
  | nil => rfl
  | cons s rest ih =>
      have hp : pos ∈ ax := h pos le_rfl (by simp)
      simp only [removeIdxsAux, if_pos hp]
      exact ih fun p h1 h2 => h p (by omega) (by simp only [List.length_cons]; omega)

theorem removeIdxsAux_range_tail (l : List ℕ) :
    removeIdxsAux l (List.range' 1 (l.length - 1)) 0 = l.take 1 := by
  cases l with
  | nil => rfl
  | cons a rest =>
      have h0 : (0 : ℕ) ∉ List.range' 1 ((a :: rest).length - 1) := by
        intro hmem
        rcases List.mem_range'.mp hmem with ⟨i, _, he⟩
        omega
      simp only [removeIdxsAux, if_neg h0]
      have hrest : removeIdxsAux rest (List.range' 1 ((a :: rest).length - 1)) 1 = [] := by
        apply removeIdxsAux_all_mem
        intro p h1 h2
        exact List.mem_range'.mpr ⟨p - 1, by simp only [List.length_cons] at h2 ⊢; omega, by omega⟩
      rw [hrest]
      rfl

theorem squeeze_dims_eq (imgs : Images) :
    (imgs.squeeze).dims =
      if imgs.dims.prod = 1 then imgs.dims.take 1
      else imgs.dims.filter (fun s => decide (s ≠ 1)) := by
  by_cases h : imgs.dims.prod = 1
  · rw [squeeze_eq_map, if_pos h, if_pos h, map_dims_none]
    show removeIdxsAux imgs.dims (List.range' 1 (imgs.shape.length - 2)) 0 = imgs.dims.take 1
    have hl : imgs.shape.length - 2 = imgs.dims.length - 1 := by
      have : imgs.dims.length = imgs.shape.length - 1 := by
        simp [Images.dims]
      omega
    rw [hl]
    exact removeIdxsAux_range_tail _
  · rw [squeeze_eq_map, if_neg h, if_neg h, map_dims_none]
    rfl

/-- C3 counterexample: on a collection with dims (4, 1, 3) — product 12 > 1 — squeeze
is not a no-op on dims: numpy squeeze with axis None removes the middle size-1 dim,
yielding dims (4, 3). -/
theorem squeeze_passthrough_cex :
    exMixedDims.dims.prod > 1
    ∧ (Images.squeeze exMixedDims).dims ≠ exMixedDims.dims
    ∧ (Images.squeeze exMixedDims).dims = [4, 3] := by
  refine ⟨?_, ?_, ?_⟩ <;> decide

/-- C3 amended: squeeze removes the size-1 dims; when the product of dims exceeds 1
it removes every size-1 per-element dim (numpy squeeze with axis None), so it is a
no-op on dims only when no dim has size 1; when the entire per-element shape is
degenerate (product of dims equal to 1) it removes all per-element axes except the
first, leaving dims equal to the first dim taken alone. -/
theorem squeeze_dims_rule (imgs : Images) :
    (imgs.dims.prod = 1 → (imgs.squeeze).dims = imgs.dims.take 1)
    ∧ (imgs.dims.prod ≠ 1 →
        (imgs.squeeze).dims = imgs.dims.filter (fun s => decide (s ≠ 1))) := by
  constructor <;> intro h <;> rw [squeeze_dims_eq] <;> simp [h]

/-- C3 witness: the amended rule applied to the concrete collections — the fully
degenerate dims (1, 1) squeeze to their first entry, the mixed dims (4, 1, 3) to the
non-degenerate entries. -/
theorem squeeze_dims_rule_witness :
    (Images.squeeze exDegenerate).dims = exDegenerate.dims.take 1
    ∧ (Images.squeeze exMixedDims).dims
        = exMixedDims.dims.filter (fun s => decide (s ≠ 1)) :=
  ⟨(squeeze_dims_rule exDegenerate).1 (by decide),
   (squeeze_dims_rule exMixedDims).2 (by decide)⟩

theorem nat_list_prod_eq_one {l : List ℕ} (h : l.prod = 1) : ∀ x ∈ l, x = 1 := by
  induction l with
  | nil => simp
  | cons a rest ih =>
      rw [List.prod_cons] at h
      have ha : a = 1 := Nat.dvd_one.mp ⟨rest.prod, h.symm⟩
      have hr : rest.prod = 1 := by rw [ha, one_mul] at h; exact h
      intro x hx
      rcases List.mem_cons.mp hx with h1 | h2
      · rw [h1]; exact ha
      · exact ih hr x h2

theorem prod_filter_ne_one (l : List ℕ) :
    (l.filter (fun s => decide (s ≠ 1))).prod = l.prod := by
  induction l with
  | nil => rfl
  | cons a rest ih =>
      by_cases ha : a = 1
      · subst ha
        simpa [List.filter_cons] using ih
      · rw [List.filter_cons, if_pos (by simp [ha]), List.prod_cons, List.prod_cons, ih]

theorem filter_ne_one_idem (l : List ℕ) :
    ((l.filter (fun s => decide (s ≠ 1))).filter (fun s => decide (s ≠ 1)))
      = l.filter (fun s => decide (s ≠ 1)) := by
  apply List.filter_eq_self.mpr
  intro a ha
  exact (List.mem_filter.mp ha).2

/-- C9: squeeze is idempotent — squeezing twice leaves the dims of a single squeeze
unchanged, for every collection. -/
theorem squeeze_idempotent_dims (imgs : Images) :
    ((imgs.squeeze).squeeze).dims = (imgs.squeeze).dims := by
  rw [squeeze_dims_eq imgs.squeeze, squeeze_dims_eq imgs]
  by_cases h : imgs.dims.prod = 1
  · rw [if_pos h]
    have h1 : (imgs.dims.take 1).prod = 1 := by
      cases hd : imgs.dims with
      | nil => simp
      | cons a rest =>
          have ha : a = 1 := nat_list_prod_eq_one (hd ▸ h) a (by simp)
          simp [ha]
    rw [if_pos h1, List.take_take]
    simp
  · rw [if_neg h]
    have h2 : (imgs.dims.filter (fun s => decide (s ≠ 1))).prod ≠ 1 := by
      rw [prod_filter_ne_one]; exact h
    rw [if_neg h2, filter_ne_one_idem]

/-- C2: on a non-empty collection each of mean, var, std, sum, max, min returns a
collection — not a scalar — with exactly one element (count 1) and with per-element
dims equal to the dims of the input. -/
theorem aggregates_single_element (sqrt : ℚ → ℚ) (imgs : Images) (h : 0 < imgs.count) :
    (imgs.mean.count = 1 ∧ imgs.mean.dims = imgs.dims)
    ∧ (imgs.var.count = 1 ∧ imgs.var.dims = imgs.dims)
    ∧ ((imgs.std sqrt).count = 1 ∧ (imgs.std sqrt).dims = imgs.dims)
    ∧ (imgs.sum.count = 1 ∧ imgs.sum.dims = imgs.dims)
    ∧ (imgs.max.count = 1 ∧ imgs.max.dims = imgs.dims)
    ∧ (imgs.min.count = 1 ∧ imgs.min.dims = imgs.dims) :=
  ⟨⟨rfl, rfl⟩, ⟨rfl, rfl⟩, ⟨rfl, rfl⟩, ⟨rfl, rfl⟩, ⟨rfl, rfl⟩, ⟨rfl, rfl⟩⟩

/-- C2 witness: the aggregate contract instantiated on a concrete non-empty
2-element collection of dims (3,). -/
theorem aggregates_single_element_witness :
    (exAgg.mean.count = 1 ∧ exAgg.mean.dims = exAgg.dims)
    ∧ (exAgg.var.count = 1 ∧ exAgg.var.dims = exAgg.dims)
    ∧ ((exAgg.std sqrtId).count = 1 ∧ (exAgg.std sqrtId).dims = exAgg.dims)
    ∧ (exAgg.sum.count = 1 ∧ exAgg.sum.dims = exAgg.dims)
    ∧ (exAgg.max.count = 1 ∧ exAgg.max.dims = exAgg.dims)
    ∧ (exAgg.min.count = 1 ∧ exAgg.min.dims = exAgg.dims) :=
  aggregates_single_element sqrtId exAgg (by decide)

theorem map_effect_fst (imgs : Images) (f : NDArray → NDArray × NDArray)
    (outdims : Option (List ℕ))
    (hf : imgs.mode = Mode.localMode → ∀ x, (f x).1 = x) :
    ((imgs.map_effect f outdims).1).mode = imgs.mode
    ∧ ((imgs.map_effect f outdims).1).shape = imgs.shape
    ∧ ∀ i idx, ((imgs.map_effect f outdims).1).arr.val (i :: idx)
        = imgs.arr.val (i :: idx) := by
  obtain ⟨a, m⟩ := imgs
  cases m with
  | localMode =>
      refine ⟨rfl, rfl, fun i idx => ?_⟩
      show (f (Images.elem ⟨a, Mode.localMode⟩ i)).1.val idx = a.val (i :: idx)
      rw [hf rfl]
      rfl
  | sparkMode => exact ⟨rfl, rfl, fun i idx => rfl⟩

theorem imageFilterInner_fst (func : NDArray → FilterSize → NDArray)
    (sizeList : List ℕ) (size' : FilterSize) (special : Bool) (im : NDArray) :
    (imageFilterInner func Mode.localMode sizeList size' special im).1 = im := by
  unfold imageFilterInner
  by_cases h : special = true
  · simp [h]
  · simp [h]

/-- C8: neither uniform nor median filtering mutates its input — for any external
filter function, any size (including the 3-d slice-by-slice special case taken when
the third size entry is 0) and either mode, the input collection after the call by
`_image_filter` (which implements both `uniform_filter` and `median_filter`) has the
same mode, the same shape, and the same value at every element position as before. -/
theorem image_filter_no_input_mutation (func : NDArray → FilterSize → NDArray)
    (imgs : Images) (size : FilterSize) :
    ((imgs._image_filter func size).1).mode = imgs.mode
    ∧ ((imgs._image_filter func size).1).shape = imgs.shape
    ∧ ∀ i idx, ((imgs._image_filter func size).1).arr.val (i :: idx)
        = imgs.arr.val (i :: idx) := by
  refine map_effect_fst imgs _ _ ?_
  intro hm x
  rw [hm]
  exact imageFilterInner_fst func _ _ _ x

/-- C7 counterexample: sample is not an explicit mode conversion, yet on a spark-mode
collection it returns a local-mode collection — spark takeSample materializes to a
driver-local array and the wrapper around a plain array is local. -/
theorem sample_mode_cex :
    exSpark.mode = Mode.sparkMode
    ∧ (Images.sample exStream exIntStream exTakeSample exSpark 1 (some 5) 0).toOption.map
        (fun r => r.1.mode) = some Mode.localMode := by
  exact ⟨rfl, rfl⟩

/-- C7 amended: mode never changes implicitly except in `sample` — map, the six
aggregates, squeeze, subsample, both projections and both filters all return a
collection in the mode of their input, but `sample` (which materializes) returns a
local-mode collection whenever it succeeds, in both modes. -/
theorem mode_preserved_except_sample :
    (∀ (imgs : Images) (f : NDArray → NDArray) (d : Option (List ℕ)),
        (imgs.map f d).mode = imgs.mode)
    ∧ (∀ imgs : Images, imgs.mean.mode = imgs.mode ∧ imgs.var.mode = imgs.mode
        ∧ imgs.sum.mode = imgs.mode ∧ imgs.max.mode = imgs.mode
        ∧ imgs.min.mode = imgs.mode)
    ∧ (∀ (sqrt : ℚ → ℚ) (imgs : Images), (imgs.std sqrt).mode = imgs.mode)
    ∧ (∀ imgs : Images, (imgs.squeeze).mode = imgs.mode)
    ∧ (∀ (imgs : Images) (factor : SubsampleFactor) (r : Images),
        imgs.subsample factor = Except.ok r → r.mode = imgs.mode)
    ∧ (∀ (imgs : Images) (axis : ℤ) (r : Images),
        imgs.max_projection axis = Except.ok r → r.mode = imgs.mode)
    ∧ (∀ (imgs : Images) (axis : ℤ) (r : Images),
        imgs.max_min_projection axis = Except.ok r → r.mode = imgs.mode)
    ∧ (∀ (func : NDArray → FilterSize → NDArray) (imgs : Images) (size : FilterSize),
        (Images.uniform_filter func imgs size).mode = imgs.mode
        ∧ (Images.median_filter func imgs size).mode = imgs.mode)
    ∧ (∀ (stream : ℕ → ℚ) (intStream : ℕ → ℕ) (takeSample : NDArray → ℕ → ℕ → NDArray)
        (imgs : Images) (nsamples : ℕ) (seed : Option ℕ) (g : ℕ), 1 ≤ nsamples →
        ∃ r : Images × ℕ,
          Images.sample stream intStream takeSample imgs nsamples seed g = Except.ok r
          ∧ r.1.mode = Mode.localMode) := by
  refine ⟨fun _ _ _ => rfl, fun _ => ⟨rfl, rfl, rfl, rfl, rfl⟩, fun _ _ => rfl,
    fun _ => rfl, ?_, ?_, ?_, fun _ _ _ => ⟨rfl, rfl⟩, ?_⟩
  · intro imgs factor r h
    simp only [Images.subsample] at h
    split at h
    · exact absurd h (by simp)
    · injection h with h1
      rw [← h1]
      rfl
  · intro imgs axis r h
    simp only [Images.max_projection] at h
    split at h
    · exact absurd h (by simp)
    · split at h
      · exact absurd h (by simp)
      · injection h with h1
        rw [← h1]
        rfl
  · intro imgs axis r h
    simp only [Images.max_min_projection] at h
    split at h
    · exact absurd h (by simp)
    · split at h
      · exact absurd h (by simp)
      · injection h with h1
        rw [← h1]
        rfl
  · intro stream intStream takeSample imgs nsamples seed g hn
    unfold Images.sample
    rw [if_neg (by omega : ¬ nsamples < 1)]
    obtain ⟨a, m⟩ := imgs
    cases m
    · exact ⟨_, rfl, rfl⟩
    · exact ⟨_, rfl, rfl⟩

/-- C7 witness: the amended statement applied concretely — sample on the spark-mode
collection succeeds and returns a local-mode collection. -/
theorem mode_preserved_except_sample_witness :
    ∃ r : Images × ℕ,
      Images.sample exStream exIntStream exTakeSample exSpark 2 (some 7) 0 = Except.ok r
      ∧ r.1.mode = Mode.localMode :=
  mode_preserved_except_sample.2.2.2.2.2.2.2.2
    exStream exIntStream exTakeSample exSpark 2 (some 7) 0 (by decide)

/-- C4 is violated by the code, which contradicts its own parameter documentation
(seed is documented as the random seed): in local mode `sample` never uses the seed —
the indices come from `random.rand`, i.e. from the advancing global generator.  The
same call with seed 42 returns element value 0 from global state 0 (advancing the
state to 1) but element value 1 when repeated from the advanced state 1; and from the
same state the seed value is irrelevant (42 and 99 agree). -/
theorem sample_ignores_seed_local_bug :
    (Images.sample exStream exIntStream exTakeSample exPair 1 (some 42) 0).toOption.map
        (fun r => (r.1.arr.val [0], r.2)) = some ((0 : ℚ), 1)
    ∧ (Images.sample exStream exIntStream exTakeSample exPair 1 (some 42) 1).toOption.map
        (fun r => r.1.arr.val [0]) = some (1 : ℚ)
    ∧ (Images.sample exStream exIntStream exTakeSample exPair 1 (some 42) 0).toOption.map
        (fun r => r.1.arr.val [0])
      = (Images.sample exStream exIntStream exTakeSample exPair 1 (some 99) 0).toOption.map
        (fun r => r.1.arr.val [0]) := by
  refine ⟨?_, ?_, rfl⟩ <;>
  · simp only [Images.sample, Images.dims, Images.shape]
    norm_num [exStream, exPair, Except.toOption]

/-- C6: both projections raise the range error exactly when the axis is at least the
number of spatial dims, before any element is processed; for every non-negative axis
strictly below the number of spatial dims they succeed, returning a collection in
which that axis is removed from dims, with the per-position maximum over the axis
(respectively the sum of the maximum and the minimum) as values. -/
theorem projection_axis_range (imgs : Images) (axis : ℤ) :
    ((imgs.dims.length : ℤ) ≤ axis →
      (imgs.max_projection axis).toOption = none
      ∧ (imgs.max_min_projection axis).toOption = none)
    ∧ (0 ≤ axis → axis < (imgs.dims.length : ℤ) →
      (∃ r, imgs.max_projection axis = Except.ok r
        ∧ r.dims = imgs.dims.eraseIdx axis.toNat
        ∧ r.mode = imgs.mode
        ∧ ∀ i idx, r.arr.val (i :: idx)
            = foldMax (fun j => imgs.arr.val (i :: idx.insertIdx axis.toNat j))
                (imgs.dims.getD axis.toNat 0))
      ∧ (∃ r, imgs.max_min_projection axis = Except.ok r
        ∧ r.dims = imgs.dims.eraseIdx axis.toNat
        ∧ r.mode = imgs.mode
        ∧ ∀ i idx, r.arr.val (i :: idx)
            = foldMax (fun j => imgs.arr.val (i :: idx.insertIdx axis.toNat j))
                (imgs.dims.getD axis.toNat 0)
              + foldMin (fun j => imgs.arr.val (i :: idx.insertIdx axis.toNat j))
                (imgs.dims.getD axis.toNat 0))) := by
  constructor
  · intro h
    constructor
    · unfold Images.max_projection
      rw [if_pos h]
      rfl
    · unfold Images.max_min_projection
      rw [if_pos h]
      rfl
  · intro h0 hlt
    have hc1 : ¬ ((imgs.dims.length : ℤ) ≤ axis) := by omega
    have hc2 : ¬ (axis < -(imgs.dims.length : ℤ)) := by omega
    have hc3 : ¬ (axis < 0) := by omega
    constructor
    · have he : imgs.max_projection axis
          = Except.ok (imgs.map (fun x => x.amaxAxis axis.toNat)
              (some (imgs.dims.eraseIdx axis.toNat))) := by
        unfold Images.max_projection
        rw [if_neg hc1, if_neg hc2, if_neg hc3]
      exact ⟨_, he, rfl, rfl, fun i idx => rfl⟩
    · have he : imgs.max_min_projection axis
          = Except.ok (imgs.map (fun x => (x.amaxAxis axis.toNat).addArr (x.aminAxis axis.toNat))
              (some (imgs.dims.eraseIdx axis.toNat))) := by
        unfold Images.max_min_projection
        rw [if_neg hc1, if_neg hc2, if_neg hc3]
      exact ⟨_, he, rfl, rfl, fun i idx => rfl⟩

/-- C6 witness: on a collection of elements with dims (4, 4, 3), axis 3 makes both
projections fail while axis 2 succeeds with dims (4, 4). -/
theorem projection_axis_range_witness :
    ((Images.max_projection exProj 3).toOption = none
      ∧ (Images.max_min_projection exProj 3).toOption = none)
    ∧ (∃ r, Images.max_projection exProj 2 = Except.ok r
        ∧ r.dims = [4, 4] ∧ r.mode = Mode.localMode) := by
  constructor
  · exact (projection_axis_range exProj 3).1 (by decide)
  · obtain ⟨⟨r, hr, hd, hm, -⟩, -⟩ := (projection_axis_range exProj 2).2 (by decide) (by decide)
    exact ⟨r, hr, hd.trans (by decide), hm.trans rfl⟩

/-- C10: the range check only rejects axis values at least the number of spatial
dims, so negative axes from -ndims to -1 are accepted: both projections succeed and
remove the axis counted from the end of dims (position axis + ndims). -/
theorem projection_negative_axis (imgs : Images) (axis : ℤ)
    (h1 : -(imgs.dims.length : ℤ) ≤ axis) (h2 : axis < 0) :
    (∃ r, imgs.max_projection axis = Except.ok r
      ∧ r.dims = imgs.dims.eraseIdx (axis + imgs.dims.length).toNat
      ∧ r.mode = imgs.mode)
    ∧ (∃ r, imgs.max_min_projection axis = Except.ok r
      ∧ r.dims = imgs.dims.eraseIdx (axis + imgs.dims.length).toNat
      ∧ r.mode = imgs.mode) := by
  have hc1 : ¬ ((imgs.dims.length : ℤ) ≤ axis) := by omega
  have hc2 : ¬ (axis < -(imgs.dims.length : ℤ)) := by omega
  constructor
  · have he : imgs.max_projection axis
        = Except.ok (imgs.map (fun x => x.amaxAxis (axis + (imgs.dims.length : ℤ)).toNat)
            (some (imgs.dims.eraseIdx (axis + (imgs.dims.length : ℤ)).toNat))) := by
      unfold Images.max_projection
      rw [if_neg hc1, if_neg hc2, if_pos h2]
    exact ⟨_, he, rfl, rfl⟩
  · have he : imgs.max_min_projection axis
        = Except.ok (imgs.map
            (fun x => (x.amaxAxis (axis + (imgs.dims.length : ℤ)).toNat).addArr
              (x.aminAxis (axis + (imgs.dims.length : ℤ)).toNat))
            (some (imgs.dims.eraseIdx (axis + (imgs.dims.length : ℤ)).toNat))) := by
      unfold Images.max_min_projection
      rw [if_neg hc1, if_neg hc2, if_pos h2]
    exact ⟨_, he, rfl, rfl⟩

/-- C10 witness: on dims (4, 4, 3), axis -1 is accepted by both projections and
removes the last dim, leaving (4, 4). -/
theorem projection_negative_axis_witness :
    (∃ r, Images.max_projection exProj (-1) = Except.ok r
      ∧ r.dims = [4, 4] ∧ r.mode = Mode.localMode)
    ∧ (∃ r, Images.max_min_projection exProj (-1) = Except.ok r
      ∧ r.dims = [4, 4] ∧ r.mode = Mode.localMode) := by
  obtain ⟨⟨r, hr, hd, hm⟩, ⟨r2, hr2, hd2, hm2⟩⟩ :=
    projection_negative_axis exProj (-1) (by decide) (by decide)
  exact ⟨⟨r, hr, hd.trans (by decide), hm.trans rfl⟩,
    ⟨r2, hr2, hd2.trans (by decide), hm2.trans rfl⟩⟩

theorem roundup_eq_ceil (d s : ℕ) (hs : 0 < s) :
    roundup d s = ⌈(d : ℚ) / (s : ℚ)⌉₊ := by
  have hsq : (0 : ℚ) < (s : ℚ) := by exact_mod_cast hs
  apply le_antisymm
  · have h1 : (d : ℚ) ≤ (⌈(d : ℚ) / (s : ℚ)⌉₊ : ℚ) * (s : ℚ) := by
      calc (d : ℚ) = ((d : ℚ) / s) * s := by field_simp
        _ ≤ (⌈(d : ℚ) / (s : ℚ)⌉₊ : ℚ) * s :=
            mul_le_mul_of_nonneg_right (Nat.le_ceil _) (le_of_lt hsq)
    have h2 : d ≤ ⌈(d : ℚ) / (s : ℚ)⌉₊ * s := by exact_mod_cast h1
    unfold roundup
    rw [Nat.div_le_iff_le_mul_add_pred hs]
    have : s * ⌈(d : ℚ) / (s : ℚ)⌉₊ = ⌈(d : ℚ) / (s : ℚ)⌉₊ * s := Nat.mul_comm _ _
    omega
  · have h3 : d ≤ roundup d s * s := by
      unfold roundup
      have hdm := Nat.div_add_mod (d + s - 1) s
      have hml : (d + s - 1) % s < s := Nat.mod_lt _ hs
      rw [Nat.mul_comm]
      generalize hq : (d + s - 1) / s = q at hdm ⊢
      generalize hm2 : (d + s - 1) % s = m at hdm hml
      generalize hp : s * q = P at hdm ⊢
      omega
    have h4 : (d : ℚ) / (s : ℚ) ≤ (roundup d s : ℚ) := by
      rw [div_le_iff₀ hsq]
      exact_mod_cast h3
    exact Nat.ceil_le.mpr h4

theorem getD_map_range {α : Type} (n i : ℕ) (g : ℕ → α) (d : α) (hi : i < n) :
    ((List.range n).map g).getD i d = g i := by
  rw [List.getD_eq_getElem _ _ (by simpa using hi)]
  rw [List.getElem_map, List.getElem_range]

theorem getD_mem_of_lt {α : Type} (l : List α) (i : ℕ) (d : α) (h : i < l.length) :
    l.getD i d ∈ l := by
  rw [List.getD_eq_getElem _ _ h]
  exact List.getElem_mem _

/-- C5: for every positive factor (a bare integer being broadcast to every spatial
axis), subsample succeeds and each output dim is the ceiling of the original dim
divided by the factor on that axis; the selected indices along each axis are 0 and
then every factor-th index; an all-ones factor leaves the dims unchanged. -/
theorem subsample_ceil_dims (imgs : Images) (factor : SubsampleFactor)
    (hlen : (factor.toList imgs.dims.length).length = imgs.dims.length)
    (hpos : ∀ x ∈ factor.toList imgs.dims.length, 0 < x) :
    ∃ r, imgs.subsample factor = Except.ok r
      ∧ r.dims.length = imgs.dims.length
      ∧ (∀ i, i < imgs.dims.length →
          r.dims.getD i 0
            = ⌈(imgs.dims.getD i 0 : ℚ)
                / ((factor.toList imgs.dims.length).getD i 1 : ℚ)⌉₊)
      ∧ (∀ t idx, r.arr.val (t :: idx)
          = imgs.arr.val (t :: List.zipWith (· * ·) idx (factor.toList imgs.dims.length)))
      ∧ ((∀ x ∈ factor.toList imgs.dims.length, x = 1) → r.dims = imgs.dims) := by
  have hguard : (factor.toList imgs.dims.length).any (fun sf => decide (sf = 0)) = false := by
    rw [List.any_eq_false]
    intro x hx
    have := hpos x hx
    simp
    omega
  have he : imgs.subsample factor
      = Except.ok (imgs.map (fun v => v.sliceStride (factor.toList imgs.dims.length))
          (some ((List.range imgs.dims.length).map fun i =>
            roundup (imgs.dims.getD i 0)
              ((factor.toList imgs.dims.length).getD i 1)))) := by
    unfold Images.subsample
    rw [if_neg (by rw [hguard]; exact Bool.false_ne_true)]
  refine ⟨_, he, ?_, ?_, fun t idx => rfl, ?_⟩
  · simp [map_dims_some]
  · intro i hi
    rw [map_dims_some]
    rw [getD_map_range _ _ _ _ hi]
    refine roundup_eq_ceil _ _ ?_
    exact hpos _ (getD_mem_of_lt _ _ _ (by omega))
  · intro hall
    rw [map_dims_some]
    apply List.ext_getElem
    · simp
    · intro i hi1 hi2
      have hi : i < imgs.dims.length := by simpa using hi2
      have h1 : ((List.range imgs.dims.length).map fun i =>
          roundup (imgs.dims.getD i 0) ((factor.toList imgs.dims.length).getD i 1))[i]
            = roundup (imgs.dims.getD i 0) ((factor.toList imgs.dims.length).getD i 1) := by
        rw [List.getElem_map, List.getElem_range]
      rw [h1]
      have hone : (factor.toList imgs.dims.length).getD i 1 = 1 :=
        hall _ (getD_mem_of_lt _ _ _ (by omega))
      rw [hone]
      unfold roundup
      rw [List.getD_eq_getElem _ _ hi]
      omega

/-- C5 witness: dims (5, 3) subsampled by the bare factor 2 succeed with two output
dims, the first being the ceiling of 5/2. -/
theorem subsample_ceil_dims_witness :
    ∃ r, exSub.subsample (SubsampleFactor.single 2) = Except.ok r
      ∧ r.dims.length = 2
      ∧ r.dims.getD 0 0 = ⌈(5 : ℚ) / (2 : ℚ)⌉₊ := by
  obtain ⟨r, hr, hl, hc, -, -⟩ :=
    subsample_ceil_dims exSub (SubsampleFactor.single 2) (by decide) (by decide)
  refine ⟨r, hr, hl.trans (by decide), ?_⟩
  have h0 := hc 0 (by decide)
  rw [h0]
  norm_num [exSub, Images.dims, Images.shape, SubsampleFactor.toList]

theorem seriesAt_transpose (c : NDArray) {n : ℕ} {D : List ℕ} (hd : c.shape = n :: D)
    (p : List ℕ) :
    seriesAt c.transpose0Last p = (List.range n).map fun t => c.val (t :: p) := by
  have h1 : c.transpose0Last.shape = D ++ [n] := by
    show c.shape.drop 1 ++ c.shape.take 1 = D ++ [n]
    rw [hd]
    rfl
  unfold seriesAt
  rw [show c.transpose0Last.shape.getLastD 0 = n by rw [h1]; exact List.getLastD_concat _ _ _]
  refine List.map_congr_left fun t _ => ?_
  show c.val ((p ++ [t]).getLastD 0 :: (p ++ [t]).dropLast) = c.val (t :: p)
  rw [List.getLastD_concat, List.dropLast_concat]

theorem localcorr_eq_spec_aux (uniformF : NDArray → FilterSize → NDArray)
    (pearson : List ℚ → List ℚ → ℚ) (a : NDArray) (m : Mode) (nb : ℕ) :
    Images.localcorr uniformF pearson ⟨a, m⟩ nb = localcorrSpec uniformF pearson ⟨a, m⟩ nb := by
  have hmul : nb * 2 + 1 = 2 * nb + 1 := by ring
  cases m
  · unfold Images.localcorr localcorrSpec
    rw [hmul]
  · unfold Images.localcorr localcorrSpec
    rw [hmul]

theorem localcorr_shape_reduce (uniformF : NDArray → FilterSize → NDArray)
    (pearson : List ℚ → List ℚ → ℚ) (a : NDArray) (m : Mode) (nb : ℕ) :
    (Images.localcorr uniformF pearson ⟨a, m⟩ nb).shape
      = ((a.shape.drop 1) ++ [a.shape.headD 0 + a.shape.headD 0]).dropLast := by
  cases m <;> rfl

theorem localcorr_val_reduce (uniformF : NDArray → FilterSize → NDArray)
    (pearson : List ℚ → List ℚ → ℚ) (a : NDArray) (m : Mode) (nb : ℕ) (p : List ℕ) :
    (Images.localcorr uniformF pearson ⟨a, m⟩ nb).val p
      = pearson
          ((seriesAt (concatArr a
              (Images.uniform_filter uniformF ⟨a, m⟩
                (FilterSize.scalar (nb * 2 + 1))).arr).transpose0Last p).take
            (a.shape.headD 0))
          ((seriesAt (concatArr a
              (Images.uniform_filter uniformF ⟨a, m⟩
                (FilterSize.scalar (nb * 2 + 1))).arr).transpose0Last p).drop
            (a.shape.headD 0)) := by
  cases m <;> rfl

/-- C1: localcorr computes its result by exactly the five-step sequence the
specification states — equal to the composition blur (window 2*neighborhood+1), then
concatenate originals first into a 2N-element collection, then convert to the series
representation, then map the per-position Pearson coefficient of the first-N against
the last-N subsequence, then materialize; consequently its shape is dims, and the
value at each spatial position is the coefficient between the original per-position
series and the blurred per-position series. -/
theorem localcorr_five_step_sequence (uniformF : NDArray → FilterSize → NDArray)
    (pearson : List ℚ → List ℚ → ℚ) (imgs : Images) (neighborhood : ℕ) :
    Images.localcorr uniformF pearson imgs neighborhood
      = localcorrSpec uniformF pearson imgs neighborhood
    ∧ (Images.localcorr uniformF pearson imgs neighborhood).shape = imgs.dims
    ∧ ∀ p : List ℕ,
        (Images.localcorr uniformF pearson imgs neighborhood).val p
          = pearson
              ((List.range imgs.count).map fun t => imgs.arr.val (t :: p))
              ((List.range imgs.count).map fun t =>
                (Images.uniform_filter uniformF imgs
                  (FilterSize.scalar (neighborhood * 2 + 1))).arr.val (t :: p)) := by
  obtain ⟨a, m⟩ := imgs
  refine ⟨localcorr_eq_spec_aux uniformF pearson a m neighborhood, ?_, ?_⟩
  · rw [localcorr_shape_reduce, List.dropLast_concat]
    rfl
  · intro p
    rw [localcorr_val_reduce]
    have hc : (concatArr a
        (Images.uniform_filter uniformF ⟨a, m⟩
          (FilterSize.scalar (neighborhood * 2 + 1))).arr).shape
        = (a.shape.headD 0 + a.shape.headD 0) :: a.shape.drop 1 := rfl
    rw [seriesAt_transpose _ hc]
    have hsplit : (List.range (a.shape.headD 0 + a.shape.headD 0)).map
        (fun t => (concatArr a
          (Images.uniform_filter uniformF ⟨a, m⟩
            (FilterSize.scalar (neighborhood * 2 + 1))).arr).val (t :: p))
        = ((List.range (a.shape.headD 0)).map fun t => a.val (t :: p))
          ++ ((List.range (a.shape.headD 0)).map fun t =>
              (Images.uniform_filter uniformF ⟨a, m⟩
                (FilterSize.scalar (neighborhood * 2 + 1))).arr.val (t :: p)) := by
      rw [List.range_add, List.map_append, List.map_map]
      congr 1
      · refine List.map_congr_left fun t ht => ?_
        have htN : t < a.shape.headD 0 := List.mem_range.mp ht
        show (if t < a.shape.headD 0 then a.val (t :: p)
              else (Images.uniform_filter uniformF ⟨a, m⟩
                (FilterSize.scalar (neighborhood * 2 + 1))).arr.val
                  ((t - a.shape.headD 0) :: p)) = a.val (t :: p)
        rw [if_pos htN]
      · refine List.map_congr_left fun t ht => ?_
        show (if a.shape.headD 0 + t < a.shape.headD 0
              then a.val ((a.shape.headD 0 + t) :: p)
              else (Images.uniform_filter uniformF ⟨a, m⟩
                (FilterSize.scalar (neighborhood * 2 + 1))).arr.val
                  ((a.shape.headD 0 + t - a.shape.headD 0) :: p))
            = (Images.uniform_filter uniformF ⟨a, m⟩
                (FilterSize.scalar (neighborhood * 2 + 1))).arr.val (t :: p)
        rw [if_neg (by omega), Nat.add_sub_cancel_left]
    rw [hsplit, List.take_left' (by simp), List.drop_left' (by simp)]
    exact rfl
